import Mathlib

/-!
# Collaborative canvas server: operation log, room registry and gateway

A shallow embedding of `server/drawing-state.js`, `server/rooms.js` and the
socket handlers of `server/server.js`.

* A JavaScript `Map` is a lookup function into `Option`: `has k` is `(m k).isSome`,
  `set k v` is `Function.update m k (some v)`, `delete k` is `Function.update m k none`.
* A JavaScript array is a `List` in array order: `push x` is `l ++ [x]`, `pop()` takes the
  last element, `slice()` is the list itself.
* A JavaScript `Set` of socket ids is a `Finset`; only `add`, `delete` and `size` are used.
* Room objects are held by reference in the source; here every mutation of a room is
  written back into the map.
* Values supplied by clients (strokes, preview payloads, cursors) are never inspected by
  the server; they are elements of a type parameter `α`.
-/

namespace CollabCanvas

abbrev RoomId := String
abbrev SocketId := String

/-! ## server/drawing-state.js -/

/-- One entry of the `state` map: `{ operations: [stroke], redo: [stroke] }`, both in
array order (the top of the redo stack is the last element). -/
structure Room (α : Type) where
  operations : List α
  redo : List α
deriving DecidableEq, Repr

/-- The module-level `state` map, `roomId -> { operations, redo }`. -/
abbrev DrawState (α : Type) := RoomId → Option (Room α)

/-- The value of `new Map()`. -/
def DrawState.empty {α : Type} : DrawState α := fun _ => none

/-- The function `ensure(roomId)`: creates the entry when absent, returns the entry. -/
def ensure {α : Type} (state : DrawState α) (roomId : RoomId) : DrawState α × Room α :=
  match state roomId with
  | some r => (state, r)
  | none => (Function.update state roomId (some ⟨[], []⟩), ⟨[], []⟩)

/-- The function `addStroke(roomId, stroke)`: push on `operations`, then `redo = []`. -/
def addStroke {α : Type} (state : DrawState α) (roomId : RoomId) (stroke : α) : DrawState α :=
  let (state1, r) := ensure state roomId
  Function.update state1 roomId (some ⟨r.operations ++ [stroke], []⟩)

/-- The function `undo(roomId)`: `null` (here `none`) on an empty log, otherwise pops the
log, pushes the popped stroke on `redo` and returns it. -/
def undo {α : Type} (state : DrawState α) (roomId : RoomId) : DrawState α × Option α :=
  let (state1, r) := ensure state roomId
  if h : r.operations.length = 0 then (state1, none)
  else
    let s := r.operations.getLast (fun hn => h (by rw [hn]; rfl))
    (Function.update state1 roomId (some ⟨r.operations.dropLast, r.redo ++ [s]⟩), some s)

/-- The function `redo(roomId)`: `null` (here `none`) on an empty redo stack, otherwise pops
the redo stack, pushes the popped stroke on the log and returns it. -/
def redo {α : Type} (state : DrawState α) (roomId : RoomId) : DrawState α × Option α :=
  let (state1, r) := ensure state roomId
  if h : r.redo.length = 0 then (state1, none)
  else
    let s := r.redo.getLast (fun hn => h (by rw [hn]; rfl))
    (Function.update state1 roomId (some ⟨r.operations ++ [s], r.redo.dropLast⟩), some s)

/-- The function `getOperations(roomId)`: a copy of the log (the entry is created when
absent, as `ensure` does). -/
def getOperations {α : Type} (state : DrawState α) (roomId : RoomId) :
    DrawState α × List α :=
  let (state1, r) := ensure state roomId
  (state1, r.operations)

/-- The function `clearRoom(roomId)`: resets an existing entry, does nothing otherwise. -/
def clearRoom {α : Type} (state : DrawState α) (roomId : RoomId) : DrawState α :=
  if (state roomId).isSome then Function.update state roomId (some ⟨[], []⟩) else state

/-- The redo stack of a room as stored (array order, top last); `[]` for a room without
an entry, which is what `ensure` would create. -/
def redoStack {α : Type} (state : DrawState α) (roomId : RoomId) : List α :=
  (ensure state roomId).2.redo

/-- The log of a room as stored; equals what `getOperations` returns. -/
def opLog {α : Type} (state : DrawState α) (roomId : RoomId) : List α :=
  (ensure state roomId).2.operations

/-- The three mutating entry points of the module, as commands. -/
inductive Cmd (α : Type) where
  | addStroke (roomId : RoomId) (stroke : α)
  | undo (roomId : RoomId)
  | redo (roomId : RoomId)
deriving DecidableEq, Repr

/-- One call of `addStroke`, `undo` or `redo` (return values dropped). -/
def Cmd.apply {α : Type} (state : DrawState α) : Cmd α → DrawState α
  | .addStroke roomId stroke => CollabCanvas.addStroke state roomId stroke
  | .undo roomId => (CollabCanvas.undo state roomId).1
  | .redo roomId => (CollabCanvas.redo state roomId).1

/-- A sequence of calls, in order. -/
def runCmds {α : Type} (state : DrawState α) (cmds : List (Cmd α)) : DrawState α :=
  cmds.foldl Cmd.apply state

/-! ## server/rooms.js -/

/-- The module-level `rooms` map, `roomId -> Set(socketId)`. -/
abbrev Registry := RoomId → Option (Finset SocketId)

/-- The value of `new Map()`. -/
def Registry.empty : Registry := fun _ => none

/-- The function `joinRoom(roomId, socketId)`. After the first line the entry exists, so the
`getD` default is never taken. -/
def joinRoom (rooms : Registry) (roomId : RoomId) (socketId : SocketId) : Registry :=
  let rooms1 := if (rooms roomId).isSome then rooms else Function.update rooms roomId (some ∅)
  Function.update rooms1 roomId (some (insert socketId ((rooms1 roomId).getD ∅)))

/-- The function `leaveRoom(roomId, socketId)`: nothing for an unknown room; otherwise the
id is deleted from the set and an emptied set is deleted from the map. -/
def leaveRoom (rooms : Registry) (roomId : RoomId) (socketId : SocketId) : Registry :=
  match rooms roomId with
  | none => rooms
  | some members =>
    let rooms1 := Function.update rooms roomId (some (members.erase socketId))
    if (members.erase socketId).card = 0 then Function.update rooms1 roomId none else rooms1

/-- The function `getUserCount(roomId)`. -/
def getUserCount (rooms : Registry) (roomId : RoomId) : Nat :=
  match rooms roomId with
  | none => 0
  | some members => members.card

/-- A call of `joinRoom` or `leaveRoom`. -/
inductive RegCall where
  | join (roomId : RoomId) (socketId : SocketId)
  | leave (roomId : RoomId) (socketId : SocketId)
deriving DecidableEq, Repr

/-- One call on the registry. -/
def RegCall.apply (rooms : Registry) : RegCall → Registry
  | .join roomId socketId => joinRoom rooms roomId socketId
  | .leave roomId socketId => leaveRoom rooms roomId socketId

/-- A sequence of calls on the registry, in order. -/
def runCalls (rooms : Registry) (calls : List RegCall) : Registry :=
  calls.foldl RegCall.apply rooms

/-! ## server/server.js: the socket handlers -/

/-- Where an emitted message goes: `socket.emit` (the handling socket only),
`io.to(roomId).emit` (every socket in the room) or `socket.to(roomId).emit` (every socket
in the room except the handling one). -/
inductive Target where
  | socket (socketId : SocketId)
  | room (roomId : RoomId)
  | roomExcept (roomId : RoomId) (socketId : SocketId)
deriving DecidableEq, Repr

/-- A value inside an emitted message. -/
inductive Val (α : Type) where
  | sid (socketId : SocketId)
  | num (n : Nat)
  | data (v : α)
  | list (vs : List α)
deriving DecidableEq, Repr

/-- The argument of `emit`: a bare value or an object literal with its keys in order. -/
inductive Body (α : Type) where
  | bare (v : Val α)
  | obj (fields : List (String × Val α))
deriving DecidableEq, Repr

/-- An emitted message: event name, addressees, argument. -/
structure Outbound (α : Type) where
  event : String
  target : Target
  body : Body α
deriving DecidableEq, Repr

/-- A message received on a socket. Each handler destructures an object whose `roomId`
may be missing (`none`). -/
inductive Inbound (α : Type) where
  | join (roomId : Option RoomId)
  | drawPoint (roomId : Option RoomId) (payload : α)
  | stroke (roomId : Option RoomId) (stroke : α)
  | cursor (roomId : Option RoomId) (cursor : α)
  | undo (roomId : Option RoomId)
  | redo (roomId : Option RoomId)
deriving DecidableEq, Repr

/-- The destructuring default `{ roomId = 'default' }`. -/
def roomOrDefault (roomId : Option RoomId) : RoomId := roomId.getD "default"

/-- The room a message is addressed to. -/
def Inbound.room {α : Type} : Inbound α → RoomId
  | .join roomId => roomOrDefault roomId
  | .drawPoint roomId _ => roomOrDefault roomId
  | .stroke roomId _ => roomOrDefault roomId
  | .cursor roomId _ => roomOrDefault roomId
  | .undo roomId => roomOrDefault roomId
  | .redo roomId => roomOrDefault roomId

/-- Everything the handlers read or write: the two module maps and, for `socket.join`,
the rooms each socket has been put in by the transport library. -/
structure Server (α : Type) where
  rooms : Registry
  state : DrawState α
  joined : SocketId → Finset RoomId

/-- The server before any message. -/
def Server.init {α : Type} : Server α :=
  ⟨Registry.empty, DrawState.empty, fun _ => ∅⟩

/-- The handler registered for each event on the socket with id `socketId`: the new server
state and the messages emitted, in emission order. -/
def handle {α : Type} (sv : Server α) (socketId : SocketId) :
    Inbound α → Server α × List (Outbound α)
  | .join roomId =>
    let roomId := roomOrDefault roomId
    let joined := Function.update sv.joined socketId (insert roomId (sv.joined socketId))
    let rooms := joinRoom sv.rooms roomId socketId
    let count := getUserCount rooms roomId
    let (state, ops) := getOperations sv.state roomId
    (⟨rooms, state, joined⟩,
      [⟨"userCount", .room roomId, .bare (.num count)⟩,
       ⟨"fullRedraw", .socket socketId, .obj [("operations", .list ops)]⟩])
  | .drawPoint roomId payload =>
    let roomId := roomOrDefault roomId
    (sv, [⟨"drawPoint", .roomExcept roomId socketId,
            .obj [("socketId", .sid socketId), ("payload", .data payload)]⟩])
  | .stroke roomId stroke =>
    let roomId := roomOrDefault roomId
    ({ sv with state := addStroke sv.state roomId stroke },
      [⟨"stroke", .room roomId, .obj [("stroke", .data stroke)]⟩])
  | .cursor roomId cursor =>
    let roomId := roomOrDefault roomId
    (sv, [⟨"cursor", .roomExcept roomId socketId,
            .obj [("socketId", .sid socketId), ("cursor", .data cursor)]⟩])
  | .undo roomId =>
    let roomId := roomOrDefault roomId
    let (state1, _undone) := undo sv.state roomId
    let (state2, ops) := getOperations state1 roomId
    ({ sv with state := state2 }, [⟨"fullRedraw", .room roomId, .obj [("operations", .list ops)]⟩])
  | .redo roomId =>
    let roomId := roomOrDefault roomId
    let (state1, _redone) := redo sv.state roomId
    let (state2, ops) := getOperations state1 roomId
    ({ sv with state := state2 }, [⟨"fullRedraw", .room roomId, .obj [("operations", .list ops)]⟩])

/-- Messages are handled one at a time in arrival order; each comes with the id of the
socket it arrived on. -/
def runServer {α : Type} (sv : Server α) (msgs : List (SocketId × Inbound α)) : Server α :=
  msgs.foldl (fun sv m => (handle sv m.1 m.2).1) sv

/-! ## Observations used in the statements -/

/-- The entry `ensure` returns for a room: the stored one, or the fresh empty one. -/
def roomAt {α : Type} (state : DrawState α) (roomId : RoomId) : Room α :=
  (ensure state roomId).2

/-- The log followed by the redo stack read from its top downwards. -/
def timeline {α : Type} (state : DrawState α) (roomId : RoomId) : List α :=
  opLog state roomId ++ (redoStack state roomId).reverse

/-- Whether a command is a call of `addStroke`. -/
def Cmd.isAddStroke {α : Type} : Cmd α → Bool
  | .addStroke _ _ => true
  | _ => false

/-! ## Reference list semantics of one room's history

Written from the specification's wording (append = snoc and clear redo, undo = move last
to redo, redo = move redo top back), independently of the state map: a log and a redo
stack whose top is the head of the list. -/

/-- The history of one room in the reference semantics. -/
structure RefRoom (α : Type) where
  log : List α
  redoTopFirst : List α
deriving DecidableEq, Repr

/-- The three operations of the reference semantics. -/
inductive RefOp (α : Type) where
  | append (op : α)
  | undo
  | redo
deriving DecidableEq, Repr

/-- One operation of the reference semantics. -/
def RefRoom.step {α : Type} (h : RefRoom α) : RefOp α → RefRoom α
  | .append op => ⟨h.log ++ [op], []⟩
  | .undo =>
    match h.log.getLast? with
    | none => h
    | some s => ⟨h.log.dropLast, s :: h.redoTopFirst⟩
  | .redo =>
    match h.redoTopFirst with
    | [] => h
    | s :: rest => ⟨h.log ++ [s], rest⟩

/-- The reference semantics folded over a list of operations, from the empty history. -/
def refRun {α : Type} (ops : List (RefOp α)) : RefRoom α :=
  ops.foldl RefRoom.step ⟨[], []⟩

/-- The reference operation a message stands for with respect to room `r`: none unless it
is a stroke, undo or redo message addressed to `r`. The sender is not looked at. -/
def refOpFor {α : Type} (r : RoomId) (m : SocketId × Inbound α) : Option (RefOp α) :=
  if m.2.room = r then
    match m.2 with
    | .stroke _ stroke => some (.append stroke)
    | .undo _ => some .undo
    | .redo _ => some .redo
    | _ => none
  else none

/-- The stored room that represents a reference history (redo stack in array order). -/
def RefRoom.toRoom {α : Type} (h : RefRoom α) : Room α :=
  ⟨h.log, h.redoTopFirst.reverse⟩

/-! ## Counting members from the history of registry calls -/

/-- The socket id a call is made for. -/
def RegCall.socketId : RegCall → SocketId
  | .join _ socketId => socketId
  | .leave _ socketId => socketId

/-- Whether the most recent call on `(r, c)` in `calls` is a `joinRoom`; false when there is
no call on `(r, c)` at all. -/
def lastCallIsJoin (calls : List RegCall) (r : RoomId) (c : SocketId) : Bool :=
  calls.foldl (fun b call =>
    match call with
    | .join r1 c1 => if r1 = r ∧ c1 = c then true else b
    | .leave r1 c1 => if r1 = r ∧ c1 = c then false else b) false

/-- The distinct connection ids whose most recent call on room `r` is a `joinRoom`. -/
def joinedNotLeft (calls : List RegCall) (r : RoomId) : Finset SocketId :=
  (calls.map RegCall.socketId).toFinset.filter (fun c => lastCallIsJoin calls r c = true)

/-- The member set of a room, empty when the room has no entry. -/
def members (rooms : Registry) (r : RoomId) : Finset SocketId :=
  (rooms r).getD ∅

/-- The number of `joinRoom` calls on room `r` in `calls`. -/
def joinCount (calls : List RegCall) (r : RoomId) : Nat :=
  (calls.filter (fun call => match call with
    | .join r1 _ => decide (r1 = r)
    | .leave _ _ => false)).length

/-- The number of `leaveRoom` calls on room `r` in `calls`. -/
def leaveCount (calls : List RegCall) (r : RoomId) : Nat :=
  (calls.filter (fun call => match call with
    | .join _ _ => false
    | .leave r1 _ => decide (r1 = r))).length

/-- Every `joinRoom` on `r` is made for a socket that is not a member of `r` at that
moment, and every `leaveRoom` on `r` for one that is. -/
def admissible (rooms : Registry) (r : RoomId) : List RegCall → Bool
  | [] => true
  | .join r1 c :: rest =>
    (decide (r1 ≠ r) || decide (c ∉ members rooms r)) && admissible (joinRoom rooms r1 c) r rest
  | .leave r1 c :: rest =>
    (decide (r1 ≠ r) || decide (c ∈ members rooms r)) && admissible (leaveRoom rooms r1 c) r rest


/-! ## Reading a room out of the state map -/

theorem roomAt_eq {α : Type} (state : DrawState α) (roomId : RoomId) :
    roomAt state roomId = (state roomId).getD ⟨[], []⟩ := by
  unfold roomAt ensure
  cases h : state roomId <;> simp

theorem opLog_eq {α : Type} (state : DrawState α) (roomId : RoomId) :
    opLog state roomId = (roomAt state roomId).operations := rfl

theorem redoStack_eq {α : Type} (state : DrawState α) (roomId : RoomId) :
    redoStack state roomId = (roomAt state roomId).redo := rfl

theorem roomAt_update {α : Type} (state : DrawState α) (roomId r : RoomId) (v : Room α) :
    roomAt (Function.update state roomId (some v)) r
      = if r = roomId then v else roomAt state r := by
  simp only [roomAt_eq, Function.update_apply]
  split <;> simp

theorem roomAt_ensure {α : Type} (state : DrawState α) (roomId r : RoomId) :
    roomAt (ensure state roomId).1 r = roomAt state r := by
  unfold ensure
  cases h : state roomId with
  | some v => simp
  | none =>
    simp only [roomAt_update]
    split
    · next hr => subst hr; simp [roomAt_eq, h]
    · rfl

theorem ensure_snd {α : Type} (state : DrawState α) (roomId : RoomId) :
    (ensure state roomId).2 = roomAt state roomId := rfl

theorem roomAt_addStroke {α : Type} (state : DrawState α) (roomId r : RoomId) (stroke : α) :
    roomAt (addStroke state roomId stroke) r
      = if r = roomId then ⟨(roomAt state roomId).operations ++ [stroke], []⟩
        else roomAt state r := by
  unfold addStroke
  simp only [roomAt_update, roomAt_ensure, ensure_snd]

theorem getLast_toList {α : Type} (l : List α) (h : l ≠ []) :
    l.getLast?.toList = [l.getLast h] := by
  rw [List.getLast?_eq_getLast l h]; rfl

theorem undo_snd {α : Type} (state : DrawState α) (roomId : RoomId) :
    (undo state roomId).2 = (roomAt state roomId).operations.getLast? := by
  unfold undo
  simp only [ensure_snd]
  split
  · next h => simp [List.length_eq_zero.mp h]
  · next h =>
    have hne : (roomAt state roomId).operations ≠ [] := fun hn => h (by rw [hn]; rfl)
    simp [List.getLast?_eq_getLast _ hne]

theorem roomAt_undo {α : Type} (state : DrawState α) (roomId r : RoomId) :
    roomAt (undo state roomId).1 r
      = if r = roomId then
          ⟨(roomAt state roomId).operations.dropLast,
            (roomAt state roomId).redo ++ (roomAt state roomId).operations.getLast?.toList⟩
        else roomAt state r := by
  unfold undo
  simp only [ensure_snd]
  split
  · next h =>
    have h0 := List.length_eq_zero.mp h
    simp only [roomAt_ensure, h0]
    split
    · next hr =>
      subst hr
      cases hroom : roomAt state r with
      | mk ops rd => rw [hroom] at h0; simp at h0; simp [h0]
    · rfl
  · next h =>
    have hne : (roomAt state roomId).operations ≠ [] := fun hn => h (by rw [hn]; rfl)
    simp only [roomAt_update, roomAt_ensure, getLast_toList _ hne]

theorem redo_snd {α : Type} (state : DrawState α) (roomId : RoomId) :
    (redo state roomId).2 = (roomAt state roomId).redo.getLast? := by
  unfold redo
  simp only [ensure_snd]
  split
  · next h => simp [List.length_eq_zero.mp h]
  · next h =>
    have hne : (roomAt state roomId).redo ≠ [] := fun hn => h (by rw [hn]; rfl)
    simp [List.getLast?_eq_getLast _ hne]

theorem roomAt_redo {α : Type} (state : DrawState α) (roomId r : RoomId) :
    roomAt (redo state roomId).1 r
      = if r = roomId then
          ⟨(roomAt state roomId).operations ++ (roomAt state roomId).redo.getLast?.toList,
            (roomAt state roomId).redo.dropLast⟩
        else roomAt state r := by
  unfold redo
  simp only [ensure_snd]
  split
  · next h =>
    have h0 := List.length_eq_zero.mp h
    simp only [roomAt_ensure, h0]
    split
    · next hr =>
      subst hr
      cases hroom : roomAt state r with
      | mk ops rd => rw [hroom] at h0; simp at h0; simp [h0]
    · rfl
  · next h =>
    have hne : (roomAt state roomId).redo ≠ [] := fun hn => h (by rw [hn]; rfl)
    simp only [roomAt_update, roomAt_ensure, getLast_toList _ hne]

theorem getOperations_snd {α : Type} (state : DrawState α) (roomId : RoomId) :
    (getOperations state roomId).2 = (roomAt state roomId).operations := rfl

theorem roomAt_getOperations {α : Type} (state : DrawState α) (roomId r : RoomId) :
    roomAt (getOperations state roomId).1 r = roomAt state r := by
  unfold getOperations
  simp only [roomAt_ensure]

/-! ## The operation log: `addStroke`, `undo`, `redo` -/

theorem timeline_eq {α : Type} (state : DrawState α) (roomId : RoomId) :
    timeline state roomId
      = (roomAt state roomId).operations ++ (roomAt state roomId).redo.reverse := rfl

theorem timeline_undo {α : Type} (state : DrawState α) (roomId r : RoomId) :
    timeline (undo state roomId).1 r = timeline state r := by
  simp only [timeline_eq, roomAt_undo]
  split
  · next h =>
    subst h
    simp only [List.reverse_append, ← List.append_assoc]
    congr 1
    rcases List.eq_nil_or_concat (roomAt state r).operations with h | ⟨l1, a, h⟩
    · simp [h]
    · simp [h]
  · rfl

theorem timeline_redo {α : Type} (state : DrawState α) (roomId r : RoomId) :
    timeline (redo state roomId).1 r = timeline state r := by
  simp only [timeline_eq, roomAt_redo]
  split
  · next h =>
    subst h
    rcases List.eq_nil_or_concat (roomAt state r).redo with h | ⟨l1, a, h⟩
    · simp [h]
    · simp [h]
  · rfl

theorem timeline_runCmds {α : Type} (cmds : List (Cmd α)) :
    ∀ (state : DrawState α) (r : RoomId), (∀ c ∈ cmds, c.isAddStroke = false) →
      timeline (runCmds state cmds) r = timeline state r := by
  induction cmds with
  | nil => intro state r _; rfl
  | cons c cs ih =>
    intro state r h
    have hc := h c (List.mem_cons_self _ _)
    have hcs : ∀ d ∈ cs, d.isAddStroke = false := fun d hd => h d (List.mem_cons_of_mem _ hd)
    show timeline (runCmds (Cmd.apply state c) cs) r = _
    rw [ih _ r hcs]
    cases c with
    | addStroke roomId stroke => simp [Cmd.isAddStroke] at hc
    | undo roomId => exact timeline_undo state roomId r
    | redo roomId => exact timeline_redo state roomId r

/-- C2: after `addStroke(roomId, s)` the room's log is the prior log with `s` appended at
the end and the room's redo stack is empty, whatever the prior state was. -/
theorem addStroke_appends_and_clears_redo {α : Type} (state : DrawState α) (roomId : RoomId)
    (stroke : α) :
    (getOperations (addStroke state roomId stroke) roomId).2
        = (getOperations state roomId).2 ++ [stroke]
      ∧ redoStack (addStroke state roomId stroke) roomId = [] := by
  simp [getOperations_snd, redoStack_eq, roomAt_addStroke]

/-- C3: `undo(roomId)` on an empty log returns `null` and leaves log and redo stack as they
were, also when called a second time; on a log `l ++ [s]` it returns `s`, the log
becomes `l` and `s` is pushed on top of the redo stack. -/
theorem undo_behaviour {α : Type} (state : DrawState α) (roomId : RoomId) :
    ((getOperations state roomId).2 = [] →
        (undo state roomId).2 = none
        ∧ (getOperations (undo state roomId).1 roomId).2 = (getOperations state roomId).2
        ∧ redoStack (undo state roomId).1 roomId = redoStack state roomId
        ∧ (undo (undo state roomId).1 roomId).2 = none
        ∧ (getOperations (undo (undo state roomId).1 roomId).1 roomId).2
            = (getOperations state roomId).2
        ∧ redoStack (undo (undo state roomId).1 roomId).1 roomId = redoStack state roomId)
      ∧ (∀ (l : List α) (s : α), (getOperations state roomId).2 = l ++ [s] →
        (undo state roomId).2 = some s
        ∧ (getOperations (undo state roomId).1 roomId).2 = l
        ∧ redoStack (undo state roomId).1 roomId = redoStack state roomId ++ [s]) := by
  simp only [getOperations_snd, redoStack_eq, roomAt_undo, undo_snd, if_true]
  constructor
  · intro h
    simp [h]
  · intro l s h
    simp [h]

/-- C4: `redo(roomId)` on an empty redo stack returns `null` and leaves log and redo stack
as they were; on a redo stack with top `s` above `rest` it returns `s`, appends `s` to the
log and leaves exactly `rest`, in the same order, on the redo stack. -/
theorem redo_behaviour {α : Type} (state : DrawState α) (roomId : RoomId) :
    (redoStack state roomId = [] →
        (redo state roomId).2 = none
        ∧ (getOperations (redo state roomId).1 roomId).2 = (getOperations state roomId).2
        ∧ redoStack (redo state roomId).1 roomId = redoStack state roomId)
      ∧ (∀ (rest : List α) (s : α), redoStack state roomId = rest ++ [s] →
        (redo state roomId).2 = some s
        ∧ (getOperations (redo state roomId).1 roomId).2 = (getOperations state roomId).2 ++ [s]
        ∧ redoStack (redo state roomId).1 roomId = rest) := by
  simp only [getOperations_snd, redoStack_eq, roomAt_redo, redo_snd, if_true]
  constructor
  · intro h
    simp [h]
  · intro rest s h
    simp [h]

/-- C3, at concrete inputs: the empty log of a fresh room, and the log `[1, 2]`. -/
theorem undo_behaviour_witness :
    (undo (DrawState.empty : DrawState Nat) "r").2 = none
      ∧ (undo (addStroke (addStroke (DrawState.empty : DrawState Nat) "r" 1) "r" 2) "r").2
          = some 2 :=
  ⟨((undo_behaviour (DrawState.empty : DrawState Nat) "r").1 (by decide)).1,
   ((undo_behaviour (addStroke (addStroke (DrawState.empty : DrawState Nat) "r" 1) "r" 2)
      "r").2 [1] 2 (by decide)).1⟩

/-- C4, at concrete inputs: the empty redo stack of a fresh room, and the redo stack
`[3, 2]` (top `2`) left by two undos of the log `[1, 2, 3]`. -/
theorem redo_behaviour_witness :
    (redo (DrawState.empty : DrawState Nat) "r").2 = none
      ∧ redoStack (redo (runCmds (DrawState.empty : DrawState Nat)
          [.addStroke "r" 1, .addStroke "r" 2, .addStroke "r" 3, .undo "r", .undo "r"])
          "r").1 "r" = [3] :=
  ⟨((redo_behaviour (DrawState.empty : DrawState Nat) "r").1 (by decide)).1,
   ((redo_behaviour (runCmds (DrawState.empty : DrawState Nat)
      [.addStroke "r" 1, .addStroke "r" 2, .addStroke "r" 3, .undo "r", .undo "r"])
      "r").2 [3] 2 (by decide)).2.2⟩

/-- C1 as stated fails: after `addStroke("r", 1)` and `undo("r")` the log is empty and the
redo stack holds `1`; a further `undo("r")` is a no-op and the following `redo("r")` puts
`1` back, so the log is `[1]` where it was `[]` before the two calls. -/
theorem undo_redo_not_identity_on_empty_log :
    (getOperations (runCmds (DrawState.empty : DrawState Nat)
        [.addStroke "r" 1, .undo "r"]) "r").2 = []
      ∧ (getOperations (redo (undo (runCmds (DrawState.empty : DrawState Nat)
          [.addStroke "r" 1, .undo "r"]) "r").1 "r").1 "r").2 = [1]
      ∧ (getOperations (redo (undo (runCmds (DrawState.empty : DrawState Nat)
          [.addStroke "r" 1, .undo "r"]) "r").1 "r").1 "r").2
        ≠ (getOperations (runCmds (DrawState.empty : DrawState Nat)
            [.addStroke "r" 1, .undo "r"]) "r").2 := by
  decide

/-- C1, amended: in every state reachable from the empty one by `addStroke`, `undo` and
`redo` calls in which the room's log is non-empty or its redo stack is empty, `undo(roomId)`
immediately followed by `redo(roomId)` leaves `getOperations(roomId)` as it was. -/
theorem undo_then_redo_restores_log {α : Type} (cmds : List (Cmd α)) (roomId : RoomId)
    (h : (getOperations (runCmds DrawState.empty cmds) roomId).2 ≠ []
      ∨ redoStack (runCmds DrawState.empty cmds) roomId = []) :
    (getOperations (redo (undo (runCmds DrawState.empty cmds) roomId).1 roomId).1 roomId).2
      = (getOperations (runCmds DrawState.empty cmds) roomId).2 := by
  revert h
  generalize runCmds DrawState.empty cmds = state
  simp only [getOperations_snd, redoStack_eq, roomAt_redo, roomAt_undo, if_true]
  intro h
  rcases List.eq_nil_or_concat (roomAt state roomId).operations with h0 | ⟨l, a, h0⟩
  · rcases h with h | h
    · exact absurd h0 h
    · simp [h0, h]
  · simp [h0]

/-- C1 amended, at concrete inputs: the log `[1, 2]` with redo stack `[3]`. -/
theorem undo_then_redo_restores_log_witness :
    ((getOperations (runCmds (DrawState.empty : DrawState Nat)
          [.addStroke "r" 1, .addStroke "r" 2, .addStroke "r" 3, .undo "r"]) "r").2 ≠ []
        ∨ redoStack (runCmds (DrawState.empty : DrawState Nat)
          [.addStroke "r" 1, .addStroke "r" 2, .addStroke "r" 3, .undo "r"]) "r" = [])
      ∧ (getOperations (redo (undo (runCmds (DrawState.empty : DrawState Nat)
          [.addStroke "r" 1, .addStroke "r" 2, .addStroke "r" 3, .undo "r"])
          "r").1 "r").1 "r").2 = [1, 2] :=
  ⟨Or.inl (by decide),
   (undo_then_redo_restores_log
      [.addStroke "r" 1, .addStroke "r" 2, .addStroke "r" 3, .undo "r"] "r"
      (Or.inl (by decide))).trans (by decide)⟩

/-- C10: `undo` and `redo` leave `log ++ reverse(redo)` of every room as it was, and so
do `getOperations` and every sequence of `undo` and `redo` calls on any rooms;
`addStroke(roomId, s)` makes it the prior log of `roomId` followed by `s` and leaves it
alone for every other room. -/
theorem undo_redo_preserve_timeline {α : Type} (state : DrawState α) (roomId r : RoomId) :
    timeline (undo state roomId).1 r = timeline state r
      ∧ timeline (redo state roomId).1 r = timeline state r
      ∧ timeline (getOperations state roomId).1 r = timeline state r
      ∧ (∀ cmds : List (Cmd α), (∀ c ∈ cmds, c.isAddStroke = false) →
          timeline (runCmds state cmds) r = timeline state r)
      ∧ (∀ s : α, timeline (addStroke state roomId s) roomId = opLog state roomId ++ [s])
      ∧ (∀ s : α, r ≠ roomId → timeline (addStroke state roomId s) r = timeline state r) := by
  refine ⟨timeline_undo state roomId r, timeline_redo state roomId r, ?_,
    fun cmds h => timeline_runCmds cmds state r h, ?_, ?_⟩
  · simp only [timeline_eq, roomAt_getOperations]
  · intro s
    simp [timeline_eq, opLog_eq, roomAt_addStroke]
  · intro s hr
    simp [timeline_eq, roomAt_addStroke, hr]

/-- C10, at concrete inputs: from the log `[1, 2, 3]`, the calls undo, undo, redo, undo
leave `log ++ reverse(redo)` equal to `[1, 2, 3]`. -/
theorem undo_redo_preserve_timeline_witness :
    timeline (runCmds (runCmds (DrawState.empty : DrawState Nat)
        [.addStroke "r" 1, .addStroke "r" 2, .addStroke "r" 3])
        [.undo "r", .undo "r", .redo "r", .undo "r"]) "r" = [1, 2, 3] :=
  ((undo_redo_preserve_timeline (runCmds (DrawState.empty : DrawState Nat)
      [.addStroke "r" 1, .addStroke "r" 2, .addStroke "r" 3]) "r" "r").2.2.2.1
    [.undo "r", .undo "r", .redo "r", .undo "r"] (by decide)).trans (by decide)

/-! ## The gateway against the reference semantics -/

theorem toRoom_step_undo {α : Type} (h : RefRoom α) :
    (h.step .undo).toRoom
      = ⟨h.log.dropLast, h.redoTopFirst.reverse ++ h.log.getLast?.toList⟩ := by
  unfold RefRoom.step RefRoom.toRoom
  rcases List.eq_nil_or_concat h.log with h0 | ⟨l, a, h0⟩
  · simp [h0]
  · simp [h0]

theorem toRoom_step_redo {α : Type} (h : RefRoom α) :
    (h.step .redo).toRoom
      = ⟨h.log ++ h.redoTopFirst.reverse.getLast?.toList,
          h.redoTopFirst.reverse.dropLast⟩ := by
  unfold RefRoom.step RefRoom.toRoom
  cases h0 : h.redoTopFirst with
  | nil => simp [h0]
  | cons s rest => simp

/-- One handled message moves the stored room of `r` as the reference semantics says. -/
theorem handle_refines {α : Type} (sv : Server α) (m : SocketId × Inbound α) (r : RoomId)
    (h : RefRoom α) (hsv : roomAt sv.state r = h.toRoom) :
    roomAt (handle sv m.1 m.2).1.state r
      = (match refOpFor r m with
          | some op => h.step op
          | none => h).toRoom := by
  obtain ⟨c, msg⟩ := m
  cases msg with
  | join roomId =>
    simp only [handle, refOpFor]
    split <;> simp_all [roomAt_getOperations]
  | drawPoint roomId payload =>
    simp only [handle, refOpFor]
    split <;> simp_all
  | cursor roomId cursor =>
    simp only [handle, refOpFor]
    split <;> simp_all
  | stroke roomId stroke =>
    simp only [handle, refOpFor, Inbound.room, roomAt_addStroke]
    by_cases hr : roomOrDefault roomId = r
    · subst hr
      simp [hsv, RefRoom.step, RefRoom.toRoom]
    · have hr2 : ¬ r = roomOrDefault roomId := fun e => hr e.symm
      simp [hr, hr2, hsv]
  | undo roomId =>
    simp only [handle, refOpFor, Inbound.room, roomAt_getOperations, roomAt_undo]
    by_cases hr : roomOrDefault roomId = r
    · subst hr
      simp only [if_true, toRoom_step_undo, hsv]
      rfl
    · have hr2 : ¬ r = roomOrDefault roomId := fun e => hr e.symm
      simp [hr, hr2, hsv]
  | redo roomId =>
    simp only [handle, refOpFor, Inbound.room, roomAt_getOperations, roomAt_redo]
    by_cases hr : roomOrDefault roomId = r
    · subst hr
      simp only [if_true, toRoom_step_redo, hsv]
      rfl
    · have hr2 : ¬ r = roomOrDefault roomId := fun e => hr e.symm
      simp [hr, hr2, hsv]

theorem runServer_refines {α : Type} (msgs : List (SocketId × Inbound α)) (r : RoomId) :
    ∀ (sv : Server α) (h : RefRoom α), roomAt sv.state r = h.toRoom →
      roomAt (runServer sv msgs).state r
        = ((msgs.filterMap (refOpFor r)).foldl RefRoom.step h).toRoom := by
  induction msgs with
  | nil => intro sv h hsv; exact hsv
  | cons m ms ih =>
    intro sv h hsv
    have hstep := handle_refines sv m r h hsv
    show roomAt (runServer (handle sv m.1 m.2).1 ms).state r = _
    rw [ih _ _ hstep, List.filterMap_cons]
    cases hm : refOpFor r m <;> simp

/-- C5: after any sequence of inbound messages handled in arrival order from the initial
server, `getOperations(r)` is the log of the reference list semantics folded over the
stroke, undo and redo messages addressed to `r` (messages to other rooms, messages of
other kinds and the senders play no part), and a `join` of `r` handled next, from any
connection `c`, emits a `userCount` to the room followed by a `fullRedraw` to `c` alone
that carries exactly that list. -/
theorem getOperations_refines_reference {α : Type} (msgs : List (SocketId × Inbound α))
    (r : RoomId) (c : SocketId) :
    (getOperations (runServer Server.init msgs).state r).2
        = (refRun (msgs.filterMap (refOpFor r))).log
      ∧ ∃ count : Nat, (handle (runServer Server.init msgs) c (.join (some r))).2
        = [⟨"userCount", .room r, .bare (.num count)⟩,
           ⟨"fullRedraw", .socket c,
             .obj [("operations", .list (refRun (msgs.filterMap (refOpFor r))).log)]⟩] := by
  have h0 : roomAt (Server.init : Server α).state r = (⟨[], []⟩ : RefRoom α).toRoom := by
    simp [Server.init, roomAt_eq, DrawState.empty, RefRoom.toRoom]
  have h := runServer_refines msgs r Server.init ⟨[], []⟩ h0
  have hlog : (getOperations (runServer Server.init msgs).state r).2
      = (refRun (msgs.filterMap (refOpFor r))).log := by
    rw [getOperations_snd, h]; rfl
  refine ⟨hlog, getUserCount (joinRoom (runServer Server.init msgs).rooms r c) r, ?_⟩
  simp only [handle, roomOrDefault, Option.getD_some, hlog]

/-! ## The room registry -/

theorem getUserCount_eq_card (rooms : Registry) (r : RoomId) :
    getUserCount rooms r = (members rooms r).card := by
  unfold getUserCount members
  cases rooms r <;> simp

theorem members_joinRoom (rooms : Registry) (roomId r : RoomId) (c : SocketId) :
    members (joinRoom rooms roomId c) r
      = if r = roomId then insert c (members rooms r) else members rooms r := by
  unfold joinRoom members
  by_cases hr : r = roomId
  · subst hr
    cases h : rooms r <;> simp [h]
  · cases h : rooms roomId <;> simp [h, hr, Function.update_apply]

theorem members_leaveRoom (rooms : Registry) (roomId r : RoomId) (c : SocketId) :
    members (leaveRoom rooms roomId c) r
      = if r = roomId then (members rooms r).erase c else members rooms r := by
  unfold leaveRoom members
  by_cases hr : r = roomId
  · subst hr
    cases h : rooms r with
    | none => simp [h]
    | some s =>
      simp only [if_true, Option.getD_some]
      split
      · next h0 =>
        simp only [Function.update_same, Option.getD_none]
        exact (Finset.card_eq_zero.mp h0).symm
      · simp
  · cases h : rooms roomId with
    | none => simp [hr]
    | some s =>
      simp only [hr, if_false]
      split <;> simp [hr, Function.update_apply]

theorem lastCallIsJoin_snoc (calls : List RegCall) (call : RegCall) (r : RoomId)
    (c : SocketId) :
    lastCallIsJoin (calls ++ [call]) r c
      = match call with
        | .join r1 c1 => if r1 = r ∧ c1 = c then true else lastCallIsJoin calls r c
        | .leave r1 c1 => if r1 = r ∧ c1 = c then false else lastCallIsJoin calls r c := by
  unfold lastCallIsJoin
  rw [List.foldl_append]
  rfl

theorem runCalls_snoc (rooms : Registry) (calls : List RegCall) (call : RegCall) :
    runCalls rooms (calls ++ [call]) = RegCall.apply (runCalls rooms calls) call := by
  unfold runCalls
  rw [List.foldl_append]
  rfl

theorem mem_members_runCalls (calls : List RegCall) (r : RoomId) (c : SocketId) :
    c ∈ members (runCalls Registry.empty calls) r ↔ lastCallIsJoin calls r c = true := by
  induction calls using List.reverseRecOn with
  | nil => simp [runCalls, members, Registry.empty, lastCallIsJoin]
  | append_singleton calls call ih =>
    rw [runCalls_snoc, lastCallIsJoin_snoc]
    cases call with
    | join r1 c1 =>
      simp only [RegCall.apply, members_joinRoom]
      by_cases hr : r = r1
      · subst hr
        by_cases hc : c1 = c
        · simp [hc]
        · have hc2 : ¬ c = c1 := fun e => hc e.symm
          simp [hc, hc2, ih]
      · have hr2 : ¬ r1 = r := fun e => hr e.symm
        simp [hr, hr2, ih]
    | leave r1 c1 =>
      simp only [RegCall.apply, members_leaveRoom]
      by_cases hr : r = r1
      · subst hr
        by_cases hc : c1 = c
        · simp [hc]
        · have hc2 : ¬ c = c1 := fun e => hc e.symm
          simp [hc, hc2, ih]
      · have hr2 : ¬ r1 = r := fun e => hr e.symm
        simp [hr, hr2, ih]

theorem mem_callers_of_lastCallIsJoin (calls : List RegCall) (r : RoomId) (c : SocketId) :
    lastCallIsJoin calls r c = true → c ∈ calls.map RegCall.socketId := by
  induction calls using List.reverseRecOn with
  | nil => simp [lastCallIsJoin]
  | append_singleton calls call ih =>
    rw [lastCallIsJoin_snoc]
    cases call with
    | join r1 c1 =>
      by_cases h : r1 = r ∧ c1 = c
      · simp [h, RegCall.socketId]
      · simp only [h, if_false]
        intro hl
        simp [ih hl]
    | leave r1 c1 =>
      by_cases h : r1 = r ∧ c1 = c
      · simp [h]
      · simp only [h, if_false]
        intro hl
        simp [ih hl]

theorem members_runCalls (calls : List RegCall) (r : RoomId) :
    members (runCalls Registry.empty calls) r = joinedNotLeft calls r := by
  ext c
  rw [mem_members_runCalls]
  unfold joinedNotLeft
  simp only [Finset.mem_filter, List.mem_toFinset]
  exact ⟨fun h => ⟨mem_callers_of_lastCallIsJoin calls r c h, h⟩, fun h => h.2⟩

/-- C6: after any sequence of `joinRoom` and `leaveRoom` calls on the empty registry,
`getUserCount(r)` is the number of distinct connection ids whose most recent call on `r`
is a `joinRoom`; it is 0 when there is no such id; and `leaveRoom` on a room without an
entry returns the registry unchanged. -/
theorem getUserCount_eq_joined_not_left (calls : List RegCall) (r : RoomId) :
    getUserCount (runCalls Registry.empty calls) r = (joinedNotLeft calls r).card
      ∧ ((∀ c : SocketId, lastCallIsJoin calls r c = false) →
          getUserCount (runCalls Registry.empty calls) r = 0)
      ∧ (∀ (rooms : Registry) (c : SocketId), rooms r = none →
          leaveRoom rooms r c = rooms ∧ getUserCount rooms r = 0) := by
  have hcard : getUserCount (runCalls Registry.empty calls) r = (joinedNotLeft calls r).card := by
    rw [getUserCount_eq_card, members_runCalls]
  refine ⟨hcard, ?_, ?_⟩
  · intro h
    rw [hcard, Finset.card_eq_zero]
    unfold joinedNotLeft
    simp [h]
  · intro rooms c h
    simp [leaveRoom, getUserCount, h]

/-- C6, at concrete inputs: two sockets join `"r"` and both leave again; and a `leaveRoom`
on the empty registry. -/
theorem getUserCount_eq_joined_not_left_witness :
    getUserCount (runCalls Registry.empty
        [.join "r" "a", .join "r" "b", .leave "r" "a", .leave "r" "b"]) "r" = 0
      ∧ getUserCount (leaveRoom Registry.empty "r" "a") "r" = 0 :=
  ⟨(getUserCount_eq_joined_not_left
      [.join "r" "a", .join "r" "b", .leave "r" "a", .leave "r" "b"] "r").2.1 (by
        intro c
        simp only [lastCallIsJoin, List.foldl]
        by_cases ha : "a" = c <;> by_cases hb : "b" = c <;> simp [ha, hb]),
   by
    rw [((getUserCount_eq_joined_not_left [] "r").2.2 Registry.empty "a" rfl).1]
    rfl⟩

theorem getUserCount_runCalls_balance (calls : List RegCall) (r : RoomId) :
    ∀ rooms : Registry, admissible rooms r calls = true →
      getUserCount (runCalls rooms calls) r + leaveCount calls r
        = getUserCount rooms r + joinCount calls r := by
  induction calls with
  | nil => intro rooms _; rfl
  | cons call rest ih =>
    intro rooms h
    cases call with
    | join r1 c =>
      simp only [admissible, Bool.and_eq_true, Bool.or_eq_true, decide_eq_true_eq] at h
      have hrest := ih (joinRoom rooms r1 c) h.2
      have hrun : runCalls rooms (RegCall.join r1 c :: rest)
          = runCalls (joinRoom rooms r1 c) rest := rfl
      rw [hrun]
      by_cases hr : r1 = r
      · subst hr
        have hc : c ∉ members rooms r1 := by
          rcases h.1 with h1 | h1
          · exact absurd rfl h1
          · exact h1
        have hins : getUserCount (joinRoom rooms r1 c) r1 = getUserCount rooms r1 + 1 := by
          simp [getUserCount_eq_card, members_joinRoom, Finset.card_insert_of_not_mem hc]
        have hj : joinCount (RegCall.join r1 c :: rest) r1 = joinCount rest r1 + 1 := by
          simp [joinCount]
        have hl : leaveCount (RegCall.join r1 c :: rest) r1 = leaveCount rest r1 := by
          simp [leaveCount]
        omega
      · have hr2 : ¬ r = r1 := fun e => hr e.symm
        have hins : getUserCount (joinRoom rooms r1 c) r = getUserCount rooms r := by
          simp [getUserCount_eq_card, members_joinRoom, hr2]
        have hj : joinCount (RegCall.join r1 c :: rest) r = joinCount rest r := by
          simp [joinCount, hr]
        have hl : leaveCount (RegCall.join r1 c :: rest) r = leaveCount rest r := by
          simp [leaveCount]
        omega
    | leave r1 c =>
      simp only [admissible, Bool.and_eq_true, Bool.or_eq_true, decide_eq_true_eq] at h
      have hrest := ih (leaveRoom rooms r1 c) h.2
      have hrun : runCalls rooms (RegCall.leave r1 c :: rest)
          = runCalls (leaveRoom rooms r1 c) rest := rfl
      rw [hrun]
      by_cases hr : r1 = r
      · subst hr
        have hc : c ∈ members rooms r1 := by
          rcases h.1 with h1 | h1
          · exact absurd rfl h1
          · exact h1
        have hpos : 0 < (members rooms r1).card := Finset.card_pos.mpr ⟨c, hc⟩
        have hers : getUserCount (leaveRoom rooms r1 c) r1 + 1 = getUserCount rooms r1 := by
          simp only [getUserCount_eq_card, members_leaveRoom, if_true,
            Finset.card_erase_of_mem hc]
          omega
        have hj : joinCount (RegCall.leave r1 c :: rest) r1 = joinCount rest r1 := by
          simp [joinCount]
        have hl : leaveCount (RegCall.leave r1 c :: rest) r1 = leaveCount rest r1 + 1 := by
          simp [leaveCount]
        omega
      · have hr2 : ¬ r = r1 := fun e => hr e.symm
        have hers : getUserCount (leaveRoom rooms r1 c) r = getUserCount rooms r := by
          simp [getUserCount_eq_card, members_leaveRoom, hr2]
        have hj : joinCount (RegCall.leave r1 c :: rest) r = joinCount rest r := by
          simp [joinCount]
        have hl : leaveCount (RegCall.leave r1 c :: rest) r = leaveCount rest r := by
          simp [leaveCount, hr]
        omega

/-- C7 as stated fails: the same socket joining room `"r"` twice makes N = 2 joins and
M = 0 leaves, and `getUserCount("r")` is 1, not N − M = 2. -/
theorem getUserCount_double_join :
    joinCount [RegCall.join "r" "a", RegCall.join "r" "a"] "r" = 2
      ∧ leaveCount [RegCall.join "r" "a", RegCall.join "r" "a"] "r" = 0
      ∧ getUserCount Registry.empty "r" = 0
      ∧ getUserCount (runCalls Registry.empty [.join "r" "a", .join "r" "a"]) "r" = 1
      ∧ getUserCount (runCalls Registry.empty [.join "r" "a", .join "r" "a"]) "r"
          ≠ joinCount [RegCall.join "r" "a", RegCall.join "r" "a"] "r"
            - leaveCount [RegCall.join "r" "a", RegCall.join "r" "a"] "r" := by
  decide

/-- C7, amended: starting from a registry in which room `r` has no members, after a
sequence of calls with N `joinRoom` and M `leaveRoom` calls on `r`, each `joinRoom` made
for a socket that is not a member of `r` at that moment and each `leaveRoom` for one that
is, M ≤ N and `getUserCount(r)` equals N − M. -/
theorem getUserCount_joins_minus_leaves (rooms : Registry) (r : RoomId) (calls : List RegCall)
    (h0 : getUserCount rooms r = 0) (h : admissible rooms r calls = true) :
    leaveCount calls r ≤ joinCount calls r
      ∧ getUserCount (runCalls rooms calls) r = joinCount calls r - leaveCount calls r := by
  have hb := getUserCount_runCalls_balance calls r rooms h
  omega

/-- C7 amended, at concrete inputs: three sockets join `"r"`, one of them leaves. -/
theorem getUserCount_joins_minus_leaves_witness :
    getUserCount Registry.empty "r" = 0
      ∧ admissible Registry.empty "r"
          [.join "r" "a", .join "r" "b", .leave "r" "a", .join "r" "c"] = true
      ∧ getUserCount (runCalls Registry.empty
          [.join "r" "a", .join "r" "b", .leave "r" "a", .join "r" "c"]) "r" = 2 :=
  ⟨by decide, by decide,
   (getUserCount_joins_minus_leaves Registry.empty "r"
      [.join "r" "a", .join "r" "b", .leave "r" "a", .join "r" "c"]
      (by decide) (by decide)).2.trans (by decide)⟩

/-! ## The gateway handlers for `undo`, `redo` and `drawPoint` -/

/-- C8: handling an `undo` (respectively `redo`) message, from any socket and in any state,
emits exactly one message, a `fullRedraw` to the whole room whose `operations` is the
room's log after the `undo` (respectively `redo`) was applied; when the log (respectively
the redo stack) was empty that log is the prior one and the redo stack is as it was. The
handler is a total function: there is no state or message on which it fails. -/
theorem undo_redo_handlers_broadcast_fullRedraw {α : Type} (sv : Server α)
    (socketId : SocketId) (roomId : Option RoomId) :
    (handle sv socketId (.undo roomId)).2
        = [⟨"fullRedraw", .room (roomOrDefault roomId),
            .obj [("operations",
              .list (getOperations (undo sv.state (roomOrDefault roomId)).1
                (roomOrDefault roomId)).2)]⟩]
      ∧ (getOperations (handle sv socketId (.undo roomId)).1.state (roomOrDefault roomId)).2
          = (getOperations (undo sv.state (roomOrDefault roomId)).1 (roomOrDefault roomId)).2
      ∧ redoStack (handle sv socketId (.undo roomId)).1.state (roomOrDefault roomId)
          = redoStack (undo sv.state (roomOrDefault roomId)).1 (roomOrDefault roomId)
      ∧ ((getOperations sv.state (roomOrDefault roomId)).2 = [] →
          (handle sv socketId (.undo roomId)).2
              = [⟨"fullRedraw", .room (roomOrDefault roomId),
                  .obj [("operations",
                    .list (getOperations sv.state (roomOrDefault roomId)).2)]⟩]
            ∧ (getOperations (handle sv socketId (.undo roomId)).1.state
                (roomOrDefault roomId)).2 = (getOperations sv.state (roomOrDefault roomId)).2
            ∧ redoStack (handle sv socketId (.undo roomId)).1.state (roomOrDefault roomId)
                = redoStack sv.state (roomOrDefault roomId))
      ∧ (handle sv socketId (.redo roomId)).2
        = [⟨"fullRedraw", .room (roomOrDefault roomId),
            .obj [("operations",
              .list (getOperations (redo sv.state (roomOrDefault roomId)).1
                (roomOrDefault roomId)).2)]⟩]
      ∧ (getOperations (handle sv socketId (.redo roomId)).1.state (roomOrDefault roomId)).2
          = (getOperations (redo sv.state (roomOrDefault roomId)).1 (roomOrDefault roomId)).2
      ∧ redoStack (handle sv socketId (.redo roomId)).1.state (roomOrDefault roomId)
          = redoStack (redo sv.state (roomOrDefault roomId)).1 (roomOrDefault roomId)
      ∧ (redoStack sv.state (roomOrDefault roomId) = [] →
          (handle sv socketId (.redo roomId)).2
              = [⟨"fullRedraw", .room (roomOrDefault roomId),
                  .obj [("operations",
                    .list (getOperations sv.state (roomOrDefault roomId)).2)]⟩]
            ∧ (getOperations (handle sv socketId (.redo roomId)).1.state
                (roomOrDefault roomId)).2 = (getOperations sv.state (roomOrDefault roomId)).2
            ∧ redoStack (handle sv socketId (.redo roomId)).1.state (roomOrDefault roomId)
                = redoStack sv.state (roomOrDefault roomId)) := by
  simp only [handle, getOperations_snd, redoStack_eq, roomAt_getOperations, roomAt_undo,
    roomAt_redo, if_true, true_and]
  refine ⟨?_, ?_⟩
  · intro h
    simp [h]
  · intro h
    simp [h]

/-- C8, at concrete inputs: an `undo` on the empty log of room `"r"` and a `redo` on its
empty redo stack each broadcast a `fullRedraw` with the unchanged, empty, log. -/
theorem undo_redo_handlers_broadcast_fullRedraw_witness :
    (handle (Server.init : Server Nat) "a" (.undo (some "r"))).2
        = [⟨"fullRedraw", .room "r", .obj [("operations", .list [])]⟩]
      ∧ (handle (Server.init : Server Nat) "a" (.redo (some "r"))).2
        = [⟨"fullRedraw", .room "r", .obj [("operations", .list [])]⟩] :=
  ⟨((undo_redo_handlers_broadcast_fullRedraw (Server.init : Server Nat) "a"
      (some "r")).2.2.2.1 (by decide)).1,
   ((undo_redo_handlers_broadcast_fullRedraw (Server.init : Server Nat) "a"
      (some "r")).2.2.2.2.2.2.2 (by decide)).1⟩

/-- C9 as stated fails: the message relayed for a `drawPoint` from socket `"a"` with
payload `7` is not the object with keys `senderId` and `payload`; its first key is
`socketId`. -/
theorem drawPoint_body_key_is_socketId :
    (handle (Server.init : Server Nat) "a" (.drawPoint (some "r") 7)).2
        ≠ [⟨"drawPoint", .roomExcept "r" "a",
            .obj [("senderId", .sid "a"), ("payload", .data 7)]⟩]
      ∧ (handle (Server.init : Server Nat) "a" (.drawPoint (some "r") 7)).2
        = [⟨"drawPoint", .roomExcept "r" "a",
            .obj [("socketId", .sid "a"), ("payload", .data 7)]⟩] := by
  decide

/-- C9, amended: handling a `drawPoint` message from the socket with id `socketId` leaves
the whole server state (every room's log, redo stack and member set) as it was and emits
exactly one message, a `drawPoint` to the members of the room except the sender, whose
body is the object with keys `socketId` and `payload`, holding the sender's id and the
inbound payload unchanged. -/
theorem drawPoint_handler_relays_preview {α : Type} (sv : Server α) (socketId : SocketId)
    (roomId : Option RoomId) (payload : α) :
    (handle sv socketId (.drawPoint roomId payload)).1 = sv
      ∧ (handle sv socketId (.drawPoint roomId payload)).2
        = [⟨"drawPoint", .roomExcept (roomOrDefault roomId) socketId,
            .obj [("socketId", .sid socketId), ("payload", .data payload)]⟩] :=
  ⟨rfl, rfl⟩

end CollabCanvas
